import Mathlib

/-!
Verification of the OpenLibrary enrichment pipeline
(`src/enrich_with_openlibrary.py` of the book-extraction repository).

The Python source is shallowly embedded below.  Network responses are
supplied by an explicit environment (`Env`) of response functions: a call
that raises in Python is modelled by `Except Unit`, a call whose failure is
caught and turned into an empty/None result is modelled by `Option`.
JSON objects are modelled by structures with `Option` fields (`none`
covering both an absent key and an explicit `null`, which the source treats
identically at every use site).
-/

/-- Model of Python `datetime.date`: a plain (year, month, day) triple.
Validity (year in 1..9999, day fitting the month) is enforced by the
constructor model `mkDate` below, mirroring `date(y, m, d)` raising
`ValueError` on invalid components. -/
structure PyDate where
  year : Nat
  month : Nat
  day : Nat
deriving DecidableEq, Repr

/-- Python `date` ordering is lexicographic on (year, month, day). -/
def pyDateLt (a b : PyDate) : Bool :=
  decide (a.year < b.year) ||
    (decide (a.year = b.year) &&
      (decide (a.month < b.month) ||
        (decide (a.month = b.month) && decide (a.day < b.day))))

/-- Gregorian leap-year rule used by `datetime.date`. -/
def isLeapYear (y : Nat) : Bool :=
  decide (y % 4 = 0) && (decide (y % 100 ≠ 0) || decide (y % 400 = 0))

/-- Days in a month, as validated by `datetime.date`. -/
def daysInMonth (y m : Nat) : Nat :=
  if m = 2 then (if isLeapYear y then 29 else 28)
  else if m = 4 ∨ m = 6 ∨ m = 9 ∨ m = 11 then 30
  else 31

/-- Model of the `datetime.date(y, m, d)` constructor: `none` models the
`ValueError` raised on out-of-range components. -/
def mkDate (y m d : Nat) : Option PyDate :=
  if 1 ≤ y ∧ y ≤ 9999 ∧ 1 ≤ m ∧ m ≤ 12 ∧ 1 ≤ d ∧ d ≤ daysInMonth y m
  then some ⟨y, m, d⟩ else none

/-- ASCII digit test, the `\d` class of the source's regexes (inputs here
are ASCII catalog date strings). -/
def isDigitChar (c : Char) : Bool :=
  decide (48 ≤ c.toNat) && decide (c.toNat ≤ 57)

/-- ASCII word-character test, backing the `\b` boundaries of the regex
`\b(1\d{3}|20\d{2})\b`. -/
def isWordChar (c : Char) : Bool :=
  isDigitChar c || (decide (65 ≤ c.toNat) && decide (c.toNat ≤ 90)) ||
    (decide (97 ≤ c.toNat) && decide (c.toNat ≤ 122)) || decide (c.toNat = 95)

/-- ASCII whitespace, the `\s` class of `^\s*(\d{4})\s*$`. -/
def isSpaceChar (c : Char) : Bool :=
  decide (c.toNat = 32) || decide (c.toNat = 9) || decide (c.toNat = 10) ||
    decide (c.toNat = 13) || decide (c.toNat = 12) || decide (c.toNat = 11)

/-- Numeric value of an ASCII digit character. -/
def dval (c : Char) : Nat := c.toNat - 48

/-- Value of a digit string, as `int(...)` reads it. -/
def digitsVal (ds : List Char) : Nat := ds.foldl (fun a c => 10 * a + dval c) 0

/-- Model of `re.match(r"^\s*(\d{4})\s*$", s)` followed by `int` on the
captured group: exactly four digits surrounded only by whitespace. -/
def yearOnlyNum (s : String) : Option Nat :=
  let cs := s.data.dropWhile isSpaceChar
  let ds := cs.takeWhile isDigitChar
  let rest := cs.dropWhile isDigitChar
  if ds.length = 4 ∧ rest.all isSpaceChar = true
  then some (digitsVal ds) else none

/-- Whether a prior character admits a `\b` boundary right after it
(the following character of the candidate match is always a digit, hence a
word character). -/
def boundaryOk : Option Char → Bool
  | none => true
  | some c => !(isWordChar c)

/-- Whether the character after a candidate match admits a `\b` boundary
(end of subject, or a non-word character). -/
def trailingBoundary : List Char → Bool
  | [] => true
  | c :: _ => !(isWordChar c)

/-- One attempt of the alternation `(1\d{3}|20\d{2})\b` at the current
position of the subject. -/
def yearHere : List Char → Option Nat
  | d1 :: d2 :: d3 :: d4 :: rest =>
    if (isDigitChar d1 = true ∧ isDigitChar d2 = true ∧ isDigitChar d3 = true
          ∧ isDigitChar d4 = true)
        ∧ (d1 = '1' ∨ (d1 = '2' ∧ d2 = '0'))
        ∧ trailingBoundary rest = true
    then some (1000 * dval d1 + 100 * dval d2 + 10 * dval d3 + dval d4)
    else none
  | _ => none

/-- Left-to-right scan of `re.search(r"\b(1\d{3}|20\d{2})\b", s)`: the
first position with a boundary before it at which the alternation (and its
trailing boundary) matches wins. -/
def searchYearAux : Option Char → List Char → Option Nat
  | _, [] => none
  | prev, c :: cs =>
    if boundaryOk prev then
      match yearHere (c :: cs) with
      | some y => some y
      | none => searchYearAux (some c) cs
    else searchYearAux (some c) cs

/-- Model of `re.search(r"\b(1\d{3}|20\d{2})\b", edtf_date)` plus `int` on
the match. -/
def searchYear (s : String) : Option Nat := searchYearAux none s.data

/-- `_parse_edtf_date` (src/enrich_with_openlibrary.py lines 127-156).
The `fuzzy` argument models `dateutil.parser.parse(s, fuzzy=True).date()`,
with `none` standing for a raised parse error.  The try-block first runs
the bare-year regex (where `date(year, 1, 1)` itself may raise, e.g. on
year 0) and otherwise defers to the fuzzy parse; any exception falls
through to the year-salvage regex, and a final failure returns `None`. -/
def parseEdtfDate (fuzzy : String → Option PyDate) (s : String) : Option PyDate :=
  let tryResult : Option PyDate :=
    match yearOnlyNum s with
    | some y => mkDate y 1 1
    | none => fuzzy s
  match tryResult with
  | some d => some d
  | none =>
    match searchYear s with
    | some y =>
      match mkDate y 1 1 with
      | some d => some d
      | none => none
    | none => none

/-- Split a character list at every dash, keeping empty groups. -/
def splitDash : List Char → List (List Char)
  | [] => [[]]
  | c :: cs =>
    match splitDash cs with
    | [] => [[c]]
    | g :: gs => if c = '-' then [] :: g :: gs else (c :: g) :: gs

/-- A group of one or two digit characters. -/
def twoDigitGroup (g : List Char) : Prop :=
  1 ≤ g.length ∧ g.length ≤ 2 ∧ g.all isDigitChar = true

instance (g : List Char) : Decidable (twoDigitGroup g) := by
  unfold twoDigitGroup; infer_instance

/-- Model of `dateutil.parser.parse(raw, fuzzy=True)` for the
hyphen-separated numeric shapes exercised by these claims, per dateutil's
documented semantics: components present in the string are parsed, and any
missing component (here the day of a year-month input) is filled from the
default datetime, which dateutil takes from the current date (`today`).
A full `YYYY-MM-DD` input supplies all three components; a `YYYY-MM` input
supplies year and month only; anything else (in particular a string with
no date tokens, such as "not a date") is a parse failure. -/
def dateutilParse (today : PyDate) (s : String) : Option PyDate :=
  match splitDash s.data with
  | [a, b, c] =>
    if a.length = 4 ∧ a.all isDigitChar = true ∧ twoDigitGroup b ∧ twoDigitGroup c
    then mkDate (digitsVal a) (digitsVal b) (digitsVal c)
    else none
  | [a, b] =>
    if a.length = 4 ∧ a.all isDigitChar = true ∧ twoDigitGroup b
    then mkDate (digitsVal a) (digitsVal b) today.day
    else none
  | _ => none

/-- ASCII lowering of one character, modelling `str.lower()` on the ASCII
catalog strings compared by the matcher. -/
def lowerChar (c : Char) : Char :=
  if 65 ≤ c.toNat ∧ c.toNat ≤ 90 then Char.ofNat (c.toNat + 32) else c

/-- Model of Python `str.lower()`. -/
def lowerStr (s : String) : String := String.mk (s.data.map lowerChar)

/-- Whether `p` begins the list `l`. -/
def startsWithList : List Char → List Char → Bool
  | [], _ => true
  | _ :: _, [] => false
  | p :: ps, c :: cs => decide (p = c) && startsWithList ps cs

/-- Left-to-right non-overlapping replacement over character lists,
modelling Python `str.replace` for a non-empty pattern.  The fuel argument
(instantiated with the subject's length, which every step strictly
decreases) only makes the recursion structural. -/
def replaceAllFuel (pat repl : List Char) : Nat → List Char → List Char
  | 0, cs => cs
  | _ + 1, [] => []
  | fuel + 1, c :: rest =>
    if startsWithList pat (c :: rest) = true ∧ pat ≠ [] then
      repl ++ replaceAllFuel pat repl fuel (rest.drop (pat.length - 1))
    else
      c :: replaceAllFuel pat repl fuel rest

/-- Model of Python `s.replace(pat, repl)`. -/
def pyReplace (s pat repl : String) : String :=
  String.mk (replaceAllFuel pat.data repl.data s.data.length s.data)

example : parseEdtfDate (dateutilParse ⟨2025, 10, 15⟩) "2019" = some ⟨2019, 1, 1⟩ := by decide
example : parseEdtfDate (dateutilParse ⟨2025, 10, 15⟩) "2019-07-04" = some ⟨2019, 7, 4⟩ := by decide
example : parseEdtfDate (dateutilParse ⟨2025, 10, 15⟩) "2019-07" = some ⟨2019, 7, 15⟩ := by decide
example : parseEdtfDate (dateutilParse ⟨2025, 10, 15⟩) "not a date" = none := by decide
example : parseEdtfDate (dateutilParse ⟨2025, 10, 15⟩) "circa 1987" = some ⟨1987, 1, 1⟩ := by decide
example : parseEdtfDate (dateutilParse ⟨2025, 10, 15⟩) "0000" = none := by decide
example : searchYear "12019" = none := by decide
example : searchYear "a 2019." = some 2019 := by decide
example : searchYear "x2019." = none := by decide
example : pyReplace "/works/OL45804W" "/works/" "" = "OL45804W" := by decide
example : lowerStr "The HOBBIT" = "the hobbit" := by decide

/-- A work document of the search response (`works["docs"]`), with the
fields named by `WORK_FIELDS` that the code reads.  `none` covers an
absent key. -/
structure WorkDoc where
  key : Option String
  title : Option String
  author_key : Option (List String)
  first_publish_year : Option Int
deriving DecidableEq, Repr

/-- An author entity document (`/authors/{key}.json`), as read by
`_fetch_all_author_names`. -/
structure AuthorData where
  name : Option String
  alternate_names : Option (List String)
deriving DecidableEq, Repr

/-- The query-string fields of the search URL built by `_fetch_works`. -/
structure SearchRequest where
  title : String
  author : String
  fields : String
  limit : Nat
deriving DecidableEq, Repr

/-- The `fields` constant of the source (line 29). -/
def WORK_FIELDS : String :=
  "title,author_key,author_name,author_alternative_name,first_publish_year,publish_date,publish_year,key"

/-- The search request assembled by `_fetch_works` (lines 110-115): the
title/author parameters plus the hard-coded `limit=100`. -/
def buildWorksRequest (title author : String) : SearchRequest :=
  { title := title, author := author, fields := WORK_FIELDS, limit := 100 }

/-- The JSON body of a work-search response. -/
structure SearchResult where
  numFound : Option Int
  docs : List WorkDoc
deriving DecidableEq, Repr

/-- An edition document, with the fields read by
`find_edition_with_earliest_publication` and the metadata builder. -/
structure EditionDoc where
  publish_date : Option String
  publishers : Option (List String)
  isbn_13 : Option (List String)
  isbn_10 : Option (List String)
deriving DecidableEq, Repr

/-- The first-author reference inside an `/isbn/{isbn}.json` response. -/
structure IsbnAuthorRef where
  key : Option String
deriving DecidableEq, Repr

/-- The fields of an `/isbn/{isbn}.json` response read by
`_fetch_title_and_author_by_isbn`. -/
structure IsbnData where
  title : Option String
  authors : Option (List IsbnAuthorRef)
deriving DecidableEq, Repr

/-- The pydantic `BookMetadata` model (status is always left `None` on
this path, so it is kept as an uninterpreted optional string). -/
structure BookMetadata where
  translator : Option (List String)
  isbn_13 : Option (List String)
  isbn_10 : Option (List String)
  publication_date : Option PyDate
  status : Option String
  publisher : Option (List String)
deriving DecidableEq, Repr

/-- The pydantic `OverallBookMetadata` model. -/
structure OverallBookMetadata where
  filename : Option String
  title : Option String
  subtitle : Option String
  series : Option String
  author : Option (List String)
  books3_version_metadata : Option BookMetadata
  original_version_metadata : Option BookMetadata
deriving DecidableEq, Repr

/-- The catalog environment: one response function per HTTP endpoint the
source calls.  `Option` results model failures the source catches locally
and turns into empty data; `Except Unit` results model calls whose
exceptions propagate to the caller.  `fuzzy` is the dateutil parse used by
`_parse_edtf_date`. -/
structure Env where
  search : SearchRequest → Option SearchResult
  authorByKey : String → Option AuthorData
  isbnJson : String → Except Unit IsbnData
  authorNameByKey : String → Except Unit (Option String)
  editionsProbe : String → Except Unit Nat
  editionsFetch : String → Nat → Except Unit (List EditionDoc)
  fuzzy : String → Option PyDate

/-- `_fetch_all_author_names` (lines 63-82): per key, a failed or non-200
fetch contributes nothing; otherwise the primary `name` (when present) and
then the `alternate_names` (when present) are appended. -/
def fetchAllAuthorNames (env : Env) (author_keys : List String) : List String :=
  author_keys.foldr
    (fun k acc =>
      (match env.authorByKey k with
       | none => []
       | some a => (match a.name with | none => [] | some n => [n]) ++
           (match a.alternate_names with | none => [] | some l => l)) ++ acc)
    []

/-- Python truthiness of an optional string (`None` and `""` are falsy). -/
def strTruthy : Option String → Bool
  | none => false
  | some s => !s.isEmpty

/-- The keep condition of the `fetch_and_filter_works` loop body for a
work that has an `author_key` field: exact case-insensitive title match
and some resolved author name matching case-insensitively. -/
def keepWork (env : Env) (title author : String) (w : WorkDoc) : Bool :=
  w.author_key.isSome &&
    decide (lowerStr (w.title.getD "") = lowerStr title) &&
    (fetchAllAuthorNames env (w.author_key.getD [])).any
      (fun n => decide (lowerStr n = lowerStr author))

/-- The filtering loop of `fetch_and_filter_works` (lines 169-176): works
without `author_key` are skipped; reading `work["title"]` of a remaining
work raises `KeyError` when absent (modelled by `Except.error`). -/
def filterWorksLoop (env : Env) (title author : String) :
    List WorkDoc → Except Unit (List WorkDoc)
  | [] => Except.ok []
  | w :: rest =>
    if w.author_key.isSome then
      match w.title with
      | none => Except.error ()
      | some _ =>
        if keepWork env title author w then
          (filterWorksLoop env title author rest).map (fun l => w :: l)
        else
          filterWorksLoop env title author rest
    else
      filterWorksLoop env title author rest

/-- `fetch_and_filter_works` (lines 159-177): a failed search or a
`numFound` of 0 yields `None`; otherwise the docs are filtered, and an
empty filtered list also yields `None`. -/
def fetch_and_filter_works (env : Env) (title author : String) :
    Except Unit (Option (List WorkDoc)) :=
  match env.search (buildWorksRequest title author) with
  | none => Except.ok none
  | some works =>
    if works.numFound.getD 0 = 0 then Except.ok none
    else
      (filterWorksLoop env title author works.docs).map
        (fun l => if l.isEmpty then none else some l)

/-- One step of the running minimum of lines 193-196: a work without a
`first_publish_year` leaves the accumulator alone, a strictly smaller year
replaces it (`none` stands for the untouched `float("inf")`). -/
def earliestStep (acc : Option Int) (w : WorkDoc) : Option Int :=
  match w.first_publish_year with
  | none => acc
  | some y =>
    match acc with
    | none => some y
    | some m => if y < m then some y else acc

/-- The running minimum of `first_publish_year` over the works that carry
one (lines 192-198). -/
def earliestYearOf (works : List WorkDoc) : Option Int :=
  works.foldl earliestStep none

/-- `find_work_keys_with_earliest_publication_year` (lines 180-219):
collects all works whose `first_publish_year` equals the minimum and maps
them to their keys with the `/works/` prefix removed; `work["key"]` raises
when the key is absent. -/
def find_work_keys_with_earliest_publication_year (works : List WorkDoc) :
    Except Unit (List String) :=
  if works.isEmpty then Except.ok []
  else
    match earliestYearOf works with
    | none => Except.ok []
    | some m =>
      (works.filter (fun w => w.first_publish_year == some m)).mapM
        (fun w =>
          match w.key with
          | none => Except.error ()
          | some k => Except.ok (pyReplace k "/works/" ""))

/-- `fetch_all_editions` (lines 222-280): a size probe, then a bulk fetch
capped at `max_limit`; any exception or a zero size yields `[]`. -/
def fetch_all_editions (env : Env) (work_key : String)
    (max_limit : Nat := 2000) : List EditionDoc :=
  match env.editionsProbe work_key with
  | Except.error _ => []
  | Except.ok total_size =>
    if total_size = 0 then []
    else
      match env.editionsFetch work_key (Nat.min total_size max_limit) with
      | Except.error _ => []
      | Except.ok entries => entries

/-- The parsed publication date of an edition: `none` when the
`publish_date` field is absent or unparseable. -/
def parsedDate (fuzzy : String → Option PyDate) (e : EditionDoc) : Option PyDate :=
  match e.publish_date with
  | none => none
  | some s => parseEdtfDate fuzzy s

/-- Accumulation loop of `find_edition_with_earliest_publication`
(lines 290-307): an edition sharing the current earliest year is appended;
a strictly earlier date resets the accumulator to that single edition. -/
def earliestLoop (fuzzy : String → Option PyDate) :
    List EditionDoc → PyDate → List EditionDoc → List EditionDoc
  | [], _, acc => acc
  | e :: rest, earliest, acc =>
    match parsedDate fuzzy e with
    | none => earliestLoop fuzzy rest earliest acc
    | some d =>
      if d.year = earliest.year then
        earliestLoop fuzzy rest earliest (acc ++ [e])
      else if pyDateLt d earliest then
        earliestLoop fuzzy rest d [e]
      else
        earliestLoop fuzzy rest earliest acc

/-- Non-empty publisher list test of lines 316-317 and 326
(`edition.get("publishers") is not None and len(...) > 0`). -/
def hasPublisher (e : EditionDoc) : Bool :=
  match e.publishers with
  | none => false
  | some l => !l.isEmpty

/-- The extra condition of the first preference pass (lines 318-320):
the `isbn_13` or `isbn_10` field is present (`is not None`) — note the
list is not required to be non-empty. -/
def hasIsbnField (e : EditionDoc) : Bool :=
  e.isbn_13.isSome || e.isbn_10.isSome

/-- `find_edition_with_earliest_publication` (lines 283-330): accumulate
the earliest-year bucket starting from the sentinel `date(9999, 12, 31)`,
then prefer the first edition with publisher and ISBN field, else the
first with publisher, else the bucket head. -/
def find_edition_with_earliest_publication (fuzzy : String → Option PyDate)
    (editions : List EditionDoc) : Option EditionDoc :=
  let earliest_editions := earliestLoop fuzzy editions ⟨9999, 12, 31⟩ []
  match earliest_editions with
  | [] => none
  | _ =>
    match earliest_editions.find? (fun e => hasPublisher e && hasIsbnField e) with
    | some e => some e
    | none =>
      match earliest_editions.find? hasPublisher with
      | some e => some e
      | none => earliest_editions.head?

/-- `_fetch_title_and_author_by_isbn` (lines 85-97), which has no local
try/except: a failed fetch, a missing/empty `authors` array, or a missing
first-author `key` all raise to the caller. -/
def fetchTitleAuthorByIsbn (env : Env) (isbn : String) :
    Except Unit (Option String × Option String) :=
  match env.isbnJson isbn with
  | Except.error e => Except.error e
  | Except.ok d =>
    match d.authors with
    | none => Except.error ()
    | some [] => Except.error ()
    | some (a0 :: _) =>
      match a0.key with
      | none => Except.error ()
      | some k =>
        match env.authorNameByKey (pyReplace k "/authors/" "") with
        | Except.error e => Except.error e
        | Except.ok name => Except.ok (d.title, name)

/-- One iteration of the ISBN fallback loop (lines 393-411).  The whole
body sits in a per-ISBN try/except, so every failure — a raised lookup, a
falsy title or author, or an empty match — just moves on (`none`); only a
non-empty filtered work list stops the loop. -/
def attemptIsbn (env : Env) (isbn : String) : Option (List WorkDoc) :=
  match fetchTitleAuthorByIsbn env isbn with
  | Except.error _ => none
  | Except.ok (t, a) =>
    if strTruthy t && strTruthy a then
      match fetch_and_filter_works env (t.getD "") (a.getD "") with
      | Except.error _ => none
      | Except.ok none => none
      | Except.ok (some ws) => if ws.isEmpty then none else some ws
    else none

/-- The ISBN fallback loop together with the list of ISBNs it actually
tries, in order: the loop stops right after the first ISBN whose attempt
produces a non-empty match set. -/
def tryIsbnsTrace (env : Env) : List String → Option (List WorkDoc) × List String
  | [] => (none, [])
  | isbn :: rest =>
    match attemptIsbn env isbn with
    | some ws => (some ws, [isbn])
    | none =>
      let r := tryIsbnsTrace env rest
      (r.1, isbn :: r.2)

/-- The primary loop of step 1 (lines 370-378): each extracted author is
tried with `fetch_and_filter_works` until one yields a non-empty list; an
exception raised by the matcher propagates (it is only caught by the
enclosing try of `enrich_with_openlibrary`). -/
def tryAuthors (env : Env) (title : String) :
    List String → Except Unit (Option (List WorkDoc))
  | [] => Except.ok none
  | a :: rest =>
    match fetch_and_filter_works env title a with
    | Except.error e => Except.error e
    | Except.ok (some ws) =>
      if ws.isEmpty then tryAuthors env title rest else Except.ok (some ws)
    | Except.ok none => tryAuthors env title rest

/-- Steps 1-2 of `enrich_with_openlibrary` (lines 369-411) with the trace
of attempted ISBNs: the ISBN fallback only runs when the primary search
found nothing, reading `books3_version_metadata.isbn_13` /
`.isbn_10` — which raises `AttributeError` when `books3_version_metadata`
is `None` — and concatenating the ISBN-13 list before the ISBN-10 list. -/
def worksPhaseTrace (env : Env) (title : String) (authors : List String)
    (bm : Option BookMetadata) :
    Except Unit (Option (List WorkDoc)) × List String :=
  match tryAuthors env title authors with
  | Except.error e => (Except.error e, [])
  | Except.ok (some ws) => (Except.ok (some ws), [])
  | Except.ok none =>
    match bm with
    | none => (Except.error (), [])
    | some b =>
      let r := tryIsbnsTrace env (b.isbn_13.getD [] ++ b.isbn_10.getD [])
      (Except.ok r.1, r.2)

/-- Steps 1-2 of `enrich_with_openlibrary` without the trace. -/
def worksPhase (env : Env) (title : String) (authors : List String)
    (bm : Option BookMetadata) : Except Unit (Option (List WorkDoc)) :=
  (worksPhaseTrace env title authors bm).1

/-- Construction of `original_version_metadata` from the selected edition
(lines 446-474): ISBN lists are kept only when present and non-empty, the
publication date is parsed from a present `publish_date`, and the
publisher list is copied whenever the field is present. -/
def buildBookMetadata (fuzzy : String → Option PyDate) (e : EditionDoc) :
    BookMetadata :=
  { translator := none
    isbn_13 :=
      match e.isbn_13 with
      | some l => if l.isEmpty then none else some l
      | none => none
    isbn_10 :=
      match e.isbn_10 with
      | some l => if l.isEmpty then none else some l
      | none => none
    publication_date :=
      match e.publish_date with
      | some pd => parseEdtfDate fuzzy pd
      | none => none
    status := none
    publisher := e.publishers }

/-- The body of the try-block of `enrich_with_openlibrary` (lines
368-487): `Except.error` models an exception reaching the enclosing
handler, `Except.ok none` the "no result" paths that leave the record
untouched, and `Except.ok (some bm)` a computed
`original_version_metadata`. -/
def enrichPipeline (env : Env) (m : OverallBookMetadata) :
    Except Unit (Option BookMetadata) :=
  match worksPhase env (m.title.getD "") (m.author.getD []) m.books3_version_metadata with
  | Except.error e => Except.error e
  | Except.ok none => Except.ok none
  | Except.ok (some ws) =>
    if ws.isEmpty then Except.ok none
    else
      match find_work_keys_with_earliest_publication_year ws with
      | Except.error e => Except.error e
      | Except.ok work_keys =>
        if work_keys.isEmpty then Except.ok none
        else
          let all_editions :=
            work_keys.foldr (fun k acc => fetch_all_editions env k ++ acc) []
          if all_editions.isEmpty then Except.ok none
          else
            match find_edition_with_earliest_publication env.fuzzy all_editions with
            | none => Except.ok none
            | some e => Except.ok (some (buildBookMetadata env.fuzzy e))

/-- `enrich_with_openlibrary` (lines 356-491): records with a falsy title
or author list are returned unchanged; otherwise the pipeline result is
written into `original_version_metadata`, with every exception caught and
every failure path leaving the record as it was. -/
def enrich_with_openlibrary (env : Env) (m : OverallBookMetadata) :
    OverallBookMetadata :=
  if !strTruthy m.title ||
      (match m.author with | none => true | some l => l.isEmpty) then m
  else
    match enrichPipeline env m with
    | Except.error _ => m
    | Except.ok none => m
    | Except.ok (some bm) => { m with original_version_metadata := some bm }

/-- `get_processed_filenames` (lines 333-351) over the pre-parsed lines of
the existing output file: `none` entries model lines that fail
`json.loads`; a parsed record contributes its filename when the field is
present and truthy. -/
def get_processed_filenames (output_lines : List (Option OverallBookMetadata)) :
    List String :=
  output_lines.foldr
    (fun l acc =>
      match l with
      | none => acc
      | some data =>
        match data.filename with
        | none => acc
        | some f => if f.isEmpty then acc else f :: acc)
    []

/-- The parse loop of `main` (lines 540-549): unparseable input lines are
counted and dropped. -/
def allEntriesOf (input_lines : List (Option OverallBookMetadata)) :
    List OverallBookMetadata :=
  input_lines.foldr (fun l acc => match l with | none => acc | some m => m :: acc) []

/-- The resume filter of `main` (lines 551-554): an entry is kept exactly
when its filename is not among the processed ones (an absent filename is
never in that set of strings). -/
def entriesToProcess (input_lines existing : List (Option OverallBookMetadata)) :
    List OverallBookMetadata :=
  (allEntriesOf input_lines).filter
    (fun e =>
      match e.filename with
      | none => true
      | some f => !(get_processed_filenames existing).contains f)

/-- The optional `--limit` truncation of `main` (lines 566-568). -/
def applyLimit (limit : Option Nat) (l : List OverallBookMetadata) :
    List OverallBookMetadata :=
  match limit with
  | none => l
  | some n => l.take n

/-- The processing loop of `main` (lines 575-591): each remaining entry is
enriched and its record appended to the output stream. -/
def runBatch (env : Env) (input_lines existing : List (Option OverallBookMetadata))
    (limit : Option Nat) : List OverallBookMetadata :=
  (applyLimit limit (entriesToProcess input_lines existing)).map
    (enrich_with_openlibrary env)

/-- The parsed publication year of an edition, when it has one. -/
def parsedYearOf (fuzzy : String → Option PyDate) (e : EditionDoc) : Option Nat :=
  (parsedDate fuzzy e).map PyDate.year

/-- The parsed publication years of a list of editions. -/
def parsedYears (fuzzy : String → Option PyDate) (es : List EditionDoc) : List Nat :=
  es.filterMap (parsedYearOf fuzzy)

/-- Minimum of a list of naturals below a starting value. -/
def minFrom (a : Nat) (ys : List Nat) : Nat := ys.foldl min a

/-- One step of an optional running minimum. -/
def optMinStep : Option Nat → Nat → Option Nat
  | none, y => some y
  | some m, y => some (min m y)

/-- Minimum of a list of naturals, `none` on the empty list.  This is the
specification-side reading of "the minimum year seen". -/
def optMinNat (ys : List Nat) : Option Nat := ys.foldl optMinStep none

lemma foldl_min_from_min (ys : List Nat) : ∀ a b,
    ys.foldl min (min a b) = min a (ys.foldl min b) := by
  induction ys with
  | nil => intro a b; rfl
  | cons y ys ih =>
    intro a b
    simp only [List.foldl]
    have h : min (min a b) y = min a (min b y) := by omega
    rw [h, ih]

lemma optMin_foldl_some (ys : List Nat) : ∀ c,
    ys.foldl optMinStep (some c) = some (ys.foldl min c) := by
  induction ys with
  | nil => intro c; rfl
  | cons y ys ih => intro c; simp only [List.foldl, optMinStep]; rw [ih]

lemma minFrom_optMin (ys : List Nat) (a : Nat) :
    minFrom a ys = match optMinNat ys with
      | none => a
      | some m => min a m := by
  cases ys with
  | nil => rfl
  | cons y ys =>
    show (y :: ys).foldl min a = _
    have h1 : optMinNat (y :: ys) = some (ys.foldl min y) := by
      show ys.foldl optMinStep (some y) = _
      rw [optMin_foldl_some]
    rw [h1]
    show ys.foldl min (min a y) = min a (ys.foldl min y)
    exact foldl_min_from_min ys a y

lemma foldl_min_mem (ys : List Nat) : ∀ c,
    ys.foldl min c = c ∨ ys.foldl min c ∈ ys := by
  induction ys with
  | nil => intro c; left; rfl
  | cons y ys ih =>
    intro c
    simp only [List.foldl]
    rcases ih (min c y) with h | h
    · rw [h]
      rcases Nat.le_total c y with hcy | hyc
      · left; omega
      · right
        have h2 : min c y = y := by omega
        rw [h2]; exact List.mem_cons_self y ys
    · right; exact List.mem_cons_of_mem y h

lemma optMinNat_mem {ys : List Nat} {m : Nat} (h : optMinNat ys = some m) : m ∈ ys := by
  cases ys with
  | nil => simp [optMinNat] at h
  | cons y ys =>
    have h1 : optMinNat (y :: ys) = some (ys.foldl min y) := by
      show ys.foldl optMinStep (some y) = _
      rw [optMin_foldl_some]
    rw [h1] at h
    injection h with h
    subst h
    rcases foldl_min_mem ys y with h2 | h2
    · rw [h2]; exact List.mem_cons_self y ys
    · exact List.mem_cons_of_mem y h2

lemma optMinNat_eq_none {ys : List Nat} (h : optMinNat ys = none) : ys = [] := by
  cases ys with
  | nil => rfl
  | cons y ys =>
    have h1 : optMinNat (y :: ys) = some (ys.foldl min y) := by
      show ys.foldl optMinStep (some y) = _
      rw [optMin_foldl_some]
    rw [h1] at h
    exact absurd h (by simp)

lemma minFrom_le (ys : List Nat) : ∀ a, minFrom a ys ≤ a := by
  induction ys with
  | nil => intro a; exact Nat.le_refl a
  | cons y ys ih =>
    intro a
    show ys.foldl min (min a y) ≤ a
    have h := ih (min a y)
    have h2 : minFrom (min a y) ys = ys.foldl min (min a y) := rfl
    omega

lemma pyDateLt_true_year {a b : PyDate} (h : pyDateLt a b = true)
    (hne : a.year ≠ b.year) : a.year < b.year := by
  simp only [pyDateLt, Bool.or_eq_true, Bool.and_eq_true, decide_eq_true_eq] at h
  rcases h with h | ⟨h, _⟩
  · exact h
  · exact absurd h hne

lemma pyDateLt_false_year {a b : PyDate} (h : pyDateLt a b = false)
    (hne : a.year ≠ b.year) : b.year < a.year := by
  simp only [pyDateLt, Bool.or_eq_false_iff, Bool.and_eq_false_iff,
    decide_eq_false_iff_not] at h
  omega

/-- The accumulation loop keeps exactly the editions whose parsed year is
the minimum year seen so far (the start value standing for the sentinel),
appending to the incoming accumulator only when that minimum is never
beaten. -/
lemma earliestLoop_eq (fuzzy : String → Option PyDate) (es : List EditionDoc) :
    ∀ (d : PyDate) (acc : List EditionDoc),
    earliestLoop fuzzy es d acc =
      (if minFrom d.year (parsedYears fuzzy es) = d.year then acc else []) ++
        es.filter
          (fun e => parsedYearOf fuzzy e == some (minFrom d.year (parsedYears fuzzy es))) := by
  induction es with
  | nil =>
    intro d acc
    simp [earliestLoop, parsedYears, minFrom]
  | cons e rest ih =>
    intro d acc
    cases hpd : parsedDate fuzzy e with
    | none =>
      have hy : parsedYearOf fuzzy e = none := by
        simp [parsedYearOf, hpd]
      have hys : parsedYears fuzzy (e :: rest) = parsedYears fuzzy rest := by
        simp [parsedYears, List.filterMap_cons, hy]
      have hloop : earliestLoop fuzzy (e :: rest) d acc
          = earliestLoop fuzzy rest d acc := by
        simp [earliestLoop, hpd]
      rw [hloop, hys, ih d acc, List.filter_cons]
      simp [hy]
    | some dd =>
      have hy : parsedYearOf fuzzy e = some dd.year := by
        simp [parsedYearOf, hpd]
      have hys : parsedYears fuzzy (e :: rest) = dd.year :: parsedYears fuzzy rest := by
        simp [parsedYears, List.filterMap_cons, hy]
      by_cases hyd : dd.year = d.year
      · -- same year as the current earliest: append to the bucket
        have hloop : earliestLoop fuzzy (e :: rest) d acc
            = earliestLoop fuzzy rest d (acc ++ [e]) := by
          simp [earliestLoop, hpd, hyd]
        have hall : minFrom d.year (parsedYears fuzzy (e :: rest))
            = minFrom d.year (parsedYears fuzzy rest) := by
          rw [hys]
          show List.foldl min (min d.year dd.year) _ = _
          have h2 : min d.year dd.year = d.year := by omega
          rw [h2]; rfl
        rw [hloop, hall, ih d (acc ++ [e]), List.filter_cons]
        by_cases hm : minFrom d.year (parsedYears fuzzy rest) = d.year
        · have hpe : (parsedYearOf fuzzy e
              == some (minFrom d.year (parsedYears fuzzy rest))) = true := by
            rw [hy, hm, hyd]; simp
          simp [hm, hpe, hy, hyd, List.append_assoc]
        · have hpe : (parsedYearOf fuzzy e
              == some (minFrom d.year (parsedYears fuzzy rest))) = false := by
            rw [hy]
            simp only [beq_eq_false_iff_ne, ne_eq, Option.some.injEq]
            omega
          simp [hm, hpe]
      · by_cases hlt : pyDateLt dd d = true
        · -- strictly earlier year: reset the accumulator
          have hyear : dd.year < d.year := pyDateLt_true_year hlt hyd
          have hloop : earliestLoop fuzzy (e :: rest) d acc
              = earliestLoop fuzzy rest dd [e] := by
            simp [earliestLoop, hpd, hyd, hlt]
          have hall : minFrom d.year (parsedYears fuzzy (e :: rest))
              = minFrom dd.year (parsedYears fuzzy rest) := by
            rw [hys]
            show List.foldl min (min d.year dd.year) _ = _
            have h2 : min d.year dd.year = dd.year := by omega
            rw [h2]; rfl
          have hmle := minFrom_le (parsedYears fuzzy rest) dd.year
          have hnd : ¬ minFrom dd.year (parsedYears fuzzy rest) = d.year := by
            omega
          rw [hloop, hall, ih dd [e], List.filter_cons, if_neg hnd]
          by_cases hm : minFrom dd.year (parsedYears fuzzy rest) = dd.year
          · have hpe : (parsedYearOf fuzzy e
                == some (minFrom dd.year (parsedYears fuzzy rest))) = true := by
              rw [hy, hm]; simp
            simp [hm, hpe, hy]
          · have hpe : (parsedYearOf fuzzy e
                == some (minFrom dd.year (parsedYears fuzzy rest))) = false := by
              rw [hy]
              simp only [beq_eq_false_iff_ne, ne_eq, Option.some.injEq]
              omega
            simp [hm, hpe]
        · -- strictly later year: skip the edition
          have hlt' : pyDateLt dd d = false := by
            cases h : pyDateLt dd d
            · rfl
            · exact absurd h hlt
          have hyear : d.year < dd.year := pyDateLt_false_year hlt' hyd
          have hloop : earliestLoop fuzzy (e :: rest) d acc
              = earliestLoop fuzzy rest d acc := by
            simp [earliestLoop, hpd, hyd, hlt']
          have hall : minFrom d.year (parsedYears fuzzy (e :: rest))
              = minFrom d.year (parsedYears fuzzy rest) := by
            rw [hys]
            show List.foldl min (min d.year dd.year) _ = _
            have h2 : min d.year dd.year = d.year := by omega
            rw [h2]; rfl
          have hmle := minFrom_le (parsedYears fuzzy rest) d.year
          have hpe : (parsedYearOf fuzzy e
              == some (minFrom d.year (parsedYears fuzzy rest))) = false := by
            rw [hy]
            simp only [beq_eq_false_iff_ne, ne_eq, Option.some.injEq]
            omega
          rw [hloop, hall, ih d acc, List.filter_cons]
          simp [hpe]

/-- The bucket computed by `find_edition_with_earliest_publication` is
exactly the set of editions (in encounter order) whose parsed year is the
minimum parsed year, the sentinel year 9999 included as an upper start. -/
lemma earliestBucket_eq (fuzzy : String → Option PyDate) (es : List EditionDoc) :
    earliestLoop fuzzy es ⟨9999, 12, 31⟩ [] =
      es.filter
        (fun e => parsedYearOf fuzzy e == some (minFrom 9999 (parsedYears fuzzy es))) := by
  have h := earliestLoop_eq fuzzy es ⟨9999, 12, 31⟩ []
  simpa using h

lemma digit_bounds {c : Char} (h : isDigitChar c = true) :
    48 ≤ c.toNat ∧ c.toNat ≤ 57 := by
  simp only [isDigitChar, Bool.and_eq_true, decide_eq_true_eq] at h
  exact h

lemma yearHere_range : ∀ (cs : List Char) (y : Nat), yearHere cs = some y →
    1000 ≤ y ∧ y ≤ 2099 := by
  intro cs y h
  match cs with
  | [] => simp [yearHere] at h
  | [d1] => simp [yearHere] at h
  | [d1, d2] => simp [yearHere] at h
  | [d1, d2, d3] => simp [yearHere] at h
  | d1 :: d2 :: d3 :: d4 :: rest =>
    rw [yearHere] at h
    split at h
    · rename_i hc
      obtain ⟨⟨h1, h2, h3, h4⟩, hor, _⟩ := hc
      injection h with h
      subst h
      have b1 := digit_bounds h1
      have b2 := digit_bounds h2
      have b3 := digit_bounds h3
      have b4 := digit_bounds h4
      rcases hor with h5 | ⟨h5, h6⟩
      · subst h5
        have hv : dval '1' = 1 := by decide
        unfold dval at *
        omega
      · subst h5; subst h6
        have hv2 : dval '2' = 2 := by decide
        have hv0 : dval '0' = 0 := by decide
        unfold dval at *
        omega
    · exact absurd h (by simp)

lemma searchYearAux_range : ∀ (cs : List Char) (prev : Option Char) (y : Nat),
    searchYearAux prev cs = some y → 1000 ≤ y ∧ y ≤ 2099 := by
  intro cs
  induction cs with
  | nil => intro prev y h; simp [searchYearAux] at h
  | cons c cs ih =>
    intro prev y h
    rw [searchYearAux] at h
    split at h
    · cases hy : yearHere (c :: cs) with
      | some y0 =>
        rw [hy] at h
        injection h with h
        subst h
        exact yearHere_range _ _ hy
      | none =>
        rw [hy] at h
        exact ih (some c) y h
    · exact ih (some c) y h

/-- The salvage regex only ever yields years between 1000 and 2099. -/
lemma searchYear_range {s : String} {y : Nat} (h : searchYear s = some y) :
    1000 ≤ y ∧ y ≤ 2099 :=
  searchYearAux_range s.data none y h

lemma mkDate_year {y m d : Nat} {p : PyDate} (h : mkDate y m d = some p) :
    p.year = y ∧ 1 ≤ y ∧ y ≤ 9999 := by
  unfold mkDate at h
  split at h
  · rename_i hc
    injection h with h
    subst h
    exact ⟨rfl, hc.1, hc.2.1⟩
  · exact absurd h (by simp)

/-- Any date produced by `_parse_edtf_date` has a year at most 9999,
provided the fuzzy parse produces genuine `datetime.date` values. -/
lemma parseEdtf_year_le {fuzzy : String → Option PyDate}
    (hf : ∀ s x, fuzzy s = some x → x.year ≤ 9999) {s : String} {d : PyDate}
    (h : parseEdtfDate fuzzy s = some d) : d.year ≤ 9999 := by
  unfold parseEdtfDate at h
  cases hyo : yearOnlyNum s with
  | some y =>
    simp only [hyo] at h
    cases hmk : mkDate y 1 1 with
    | some p =>
      simp only [hmk, Option.some.injEq] at h
      subst h
      have hy := mkDate_year hmk
      omega
    | none =>
      simp only [hmk] at h
      cases hsy : searchYear s with
      | some y2 =>
        simp only [hsy] at h
        cases hmk2 : mkDate y2 1 1 with
        | some p2 =>
          simp only [hmk2, Option.some.injEq] at h
          subst h
          have hy := mkDate_year hmk2
          omega
        | none => simp [hmk2] at h
      | none => simp [hsy] at h
  | none =>
    simp only [hyo] at h
    cases hfz : fuzzy s with
    | some p =>
      simp only [hfz, Option.some.injEq] at h
      subst h
      exact hf s p hfz
    | none =>
      simp only [hfz] at h
      cases hsy : searchYear s with
      | some y2 =>
        simp only [hsy] at h
        cases hmk2 : mkDate y2 1 1 with
        | some p2 =>
          simp only [hmk2, Option.some.injEq] at h
          subst h
          have hy := mkDate_year hmk2
          omega
        | none => simp [hmk2] at h
      | none => simp [hsy] at h

lemma parsedYears_mem {fuzzy : String → Option PyDate} {es : List EditionDoc}
    {y : Nat} (h : y ∈ parsedYears fuzzy es) :
    ∃ e, e ∈ es ∧ parsedYearOf fuzzy e = some y := by
  simp only [parsedYears, List.mem_filterMap] at h
  exact h

/-- Any parsed edition year is at most 9999 under a well-behaved fuzzy
parse. -/
lemma parsedYearOf_le {fuzzy : String → Option PyDate}
    (hf : ∀ s x, fuzzy s = some x → x.year ≤ 9999) {e : EditionDoc} {y : Nat}
    (h : parsedYearOf fuzzy e = some y) : y ≤ 9999 := by
  unfold parsedYearOf parsedDate at h
  cases hpd : e.publish_date with
  | none => simp [hpd] at h
  | some s =>
    simp only [hpd] at h
    cases hp : parseEdtfDate fuzzy s with
    | none => simp [hp] at h
    | some dd =>
      simp only [hp] at h
      rw [show Option.map PyDate.year (some dd) = some dd.year from rfl] at h
      injection h with h
      subst h
      exact parseEdtf_year_le hf hp

/-- Claim C2's literal reading of preference (a): the edition carries at
least one actual ISBN (a non-empty `isbn_13` or `isbn_10` list). -/
def hasNonemptyIsbn (e : EditionDoc) : Bool :=
  (match e.isbn_13 with | some l => !l.isEmpty | none => false) ||
    (match e.isbn_10 with | some l => !l.isEmpty | none => false)

/-- Specification-side earliest-edition selection: bucket the editions at
the minimum parsed year and apply the preference order, with pass (a)
requiring a *present* ISBN field (the amended reading — the source tests
`is not None`, not non-emptiness). -/
def selectEditionSpec (fuzzy : String → Option PyDate)
    (editions : List EditionDoc) : Option EditionDoc :=
  match optMinNat (parsedYears fuzzy editions) with
  | none => none
  | some m =>
    match (editions.filter (fun e => parsedYearOf fuzzy e == some m)).find?
        (fun e => hasPublisher e && hasIsbnField e) with
    | some e => some e
    | none =>
      match (editions.filter (fun e => parsedYearOf fuzzy e == some m)).find?
          hasPublisher with
      | some e => some e
      | none => (editions.filter (fun e => parsedYearOf fuzzy e == some m)).head?

/-- Minimum-year edition with a publisher but an empty `isbn_13` list. -/
def c2EditionNoIsbn : EditionDoc :=
  { publish_date := some "2001", publishers := some ["Macmillan"],
    isbn_13 := some [], isbn_10 := none }

/-- Minimum-year edition with a publisher and an actual ISBN. -/
def c2EditionWithIsbn : EditionDoc :=
  { publish_date := some "2001", publishers := some ["Macmillan"],
    isbn_13 := some ["9780000000002"], isbn_10 := none }

/-- C2 (counterexample): with two editions of the same minimum year 2001,
both with a publisher, the first carrying an *empty* `isbn_13` list and the
second an actual ISBN, the code returns the first — the claim's rule (a)
("at least one ISBN") would demand the second.  The source only tests
`edition.get("isbn_13") is not None`, so a present-but-empty ISBN list
passes pass (a). -/
theorem c2_counterexample :
    find_edition_with_earliest_publication (fun _ => none)
        [c2EditionNoIsbn, c2EditionWithIsbn] = some c2EditionNoIsbn
      ∧ hasNonemptyIsbn c2EditionNoIsbn = false
      ∧ hasNonemptyIsbn c2EditionWithIsbn = true
      ∧ hasPublisher c2EditionWithIsbn = true
      ∧ parsedYearOf (fun _ => none) c2EditionNoIsbn = some 2001
      ∧ parsedYearOf (fun _ => none) c2EditionWithIsbn = some 2001 := by
  decide

/-- C2 (amended): for every list of editions, `selectEdition` accumulates
only the bucket of editions whose parsed publication date falls in the
single minimum year seen (resetting the bucket whenever a strictly earlier
year is encountered), and within that minimum-year bucket returns the
first edition in encounter order having both a non-empty publisher list
and a present (non-null) `isbn_13` or `isbn_10` field — presence of the
field, even as an empty list, suffices; failing that, the first edition
with a non-empty publisher list; failing that, the first edition of the
bucket in original order.  The hypothesis states that the fuzzy date parse
only produces genuine `datetime.date` years (at most 9999). -/
theorem c2_earliest_edition_selection (fuzzy : String → Option PyDate)
    (hf : ∀ s x, fuzzy s = some x → x.year ≤ 9999) (editions : List EditionDoc) :
    find_edition_with_earliest_publication fuzzy editions
      = selectEditionSpec fuzzy editions := by
  have hb := earliestBucket_eq fuzzy editions
  cases hmo : optMinNat (parsedYears fuzzy editions) with
  | none =>
    have hnil := optMinNat_eq_none hmo
    have hfil : editions.filter
        (fun e => parsedYearOf fuzzy e
          == some (minFrom 9999 (parsedYears fuzzy editions))) = [] := by
      apply List.filter_eq_nil_iff.mpr
      intro e he
      cases hpy : parsedYearOf fuzzy e with
      | none => simp [hpy]
      | some y =>
        have hy : y ∈ parsedYears fuzzy editions := by
          simp only [parsedYears, List.mem_filterMap]
          exact ⟨e, he, hpy⟩
        rw [hnil] at hy
        exact absurd hy (by simp)
    unfold find_edition_with_earliest_publication selectEditionSpec
    rw [hmo]
    dsimp only
    rw [hb, hfil]
  | some m =>
    have hle : ∀ y ∈ parsedYears fuzzy editions, y ≤ 9999 := by
      intro y hy
      obtain ⟨e, _, hpe⟩ := parsedYears_mem hy
      exact parsedYearOf_le hf hpe
    have hmem := optMinNat_mem hmo
    have hmf : minFrom 9999 (parsedYears fuzzy editions) = m := by
      rw [minFrom_optMin, hmo]
      have := hle m hmem
      show min 9999 m = m
      omega
    rw [hmf] at hb
    unfold find_edition_with_earliest_publication selectEditionSpec
    rw [hmo]
    dsimp only
    rw [hb]
    cases hfc : editions.filter (fun e => parsedYearOf fuzzy e == some m) with
    | nil => simp [List.find?]
    | cons b bs => rfl

/-- C2 witness: the amended theorem applied at the counterexample input
with a vacuous fuzzy parse. -/
theorem c2_earliest_edition_selection_witness :
    find_edition_with_earliest_publication (fun _ => none)
        [c2EditionNoIsbn, c2EditionWithIsbn]
      = selectEditionSpec (fun _ => none) [c2EditionNoIsbn, c2EditionWithIsbn] :=
  c2_earliest_edition_selection (fun _ => none) (fun _ _ h => nomatch h)
    [c2EditionNoIsbn, c2EditionWithIsbn]

lemma find_edition_mem {fuzzy : String → Option PyDate}
    {editions : List EditionDoc} {e : EditionDoc}
    (h : find_edition_with_earliest_publication fuzzy editions = some e) :
    e ∈ earliestLoop fuzzy editions ⟨9999, 12, 31⟩ [] := by
  unfold find_edition_with_earliest_publication at h
  dsimp only at h
  cases hB : earliestLoop fuzzy editions ⟨9999, 12, 31⟩ [] with
  | nil => rw [hB] at h; simp at h
  | cons b bs =>
    rw [hB] at h
    dsimp only at h
    cases hf1 : (b :: bs).find? (fun e => hasPublisher e && hasIsbnField e) with
    | some x =>
      rw [hf1] at h
      injection h with h
      subst h
      exact List.mem_of_find?_eq_some hf1
    | none =>
      rw [hf1] at h
      dsimp only at h
      cases hf2 : (b :: bs).find? hasPublisher with
      | some x =>
        rw [hf2] at h
        injection h with h
        subst h
        exact List.mem_of_find?_eq_some hf2
      | none =>
        rw [hf2] at h
        dsimp only at h
        simp only [List.head?] at h
        injection h with h
        subst h
        exact List.mem_cons_self b bs

/-- C3: an edition without a `publish_date` field, or whose `publish_date`
fails to parse, never enters the year bucket and is never the selected
edition; and when no edition has a parseable date the selector returns
`None`. -/
theorem c3_unparseable_editions_excluded (fuzzy : String → Option PyDate)
    (editions : List EditionDoc) :
    (∀ e ∈ earliestLoop fuzzy editions ⟨9999, 12, 31⟩ [],
        parsedDate fuzzy e ≠ none)
    ∧ (∀ e, find_edition_with_earliest_publication fuzzy editions = some e →
        e ∈ editions ∧ parsedDate fuzzy e ≠ none)
    ∧ ((∀ e ∈ editions, parsedDate fuzzy e = none) →
        find_edition_with_earliest_publication fuzzy editions = none) := by
  have hb := earliestBucket_eq fuzzy editions
  have hmemP : ∀ e ∈ earliestLoop fuzzy editions ⟨9999, 12, 31⟩ [],
      e ∈ editions ∧ parsedDate fuzzy e ≠ none := by
    intro e he
    rw [hb] at he
    have h2 := List.mem_filter.mp he
    refine ⟨h2.1, ?_⟩
    have h3 := h2.2
    simp only [beq_iff_eq] at h3
    intro hnone
    rw [parsedYearOf, hnone] at h3
    exact absurd h3 (by simp)
  refine ⟨fun e he => (hmemP e he).2, ?_, ?_⟩
  · intro e hsel
    exact hmemP e (find_edition_mem hsel)
  · intro hall
    have hfil : editions.filter
        (fun e => parsedYearOf fuzzy e
          == some (minFrom 9999 (parsedYears fuzzy editions))) = [] := by
      apply List.filter_eq_nil_iff.mpr
      intro e he
      simp [parsedYearOf, hall e he]
    unfold find_edition_with_earliest_publication
    dsimp only
    rw [hb, hfil]

/-- C3 witness: two editions, one with no `publish_date` at all and one
whose date string contains no parseable date and no salvageable year,
yield `None`. -/
theorem c3_unparseable_editions_excluded_witness :
    find_edition_with_earliest_publication (fun _ => none)
      [{ publish_date := none, publishers := some ["P"], isbn_13 := none,
         isbn_10 := none },
       { publish_date := some "????", publishers := some ["P"],
         isbn_13 := some ["9780000000002"], isbn_10 := none }] = none :=
  (c3_unparseable_editions_excluded (fun _ => none) _).2.2 (by decide)

lemma earliestStep_none {acc : Option Int} {w : WorkDoc} :
    earliestStep acc w = none ↔ acc = none ∧ w.first_publish_year = none := by
  unfold earliestStep
  cases hw : w.first_publish_year with
  | none => simp
  | some y =>
    cases acc with
    | none => simp
    | some m =>
      by_cases hlt : y < m
      · simp [hlt]
      · simp [hlt]

lemma earliestStep_eq_some {acc : Option Int} {w : WorkDoc} {a : Int}
    (h : earliestStep acc w = some a) :
    (w.first_publish_year = some a ∨ acc = some a)
    ∧ (∀ y, w.first_publish_year = some y → a ≤ y)
    ∧ (∀ b, acc = some b → a ≤ b) := by
  unfold earliestStep at h
  cases hw : w.first_publish_year with
  | none =>
    simp only [hw] at h
    refine ⟨Or.inr h, ?_, ?_⟩
    · intro y hy
      cases hy
    · intro b hb
      rw [h] at hb
      injection hb with hb
      omega
  | some y =>
    simp only [hw] at h
    cases hac : acc with
    | none =>
      simp only [hac] at h
      injection h with h
      subst h
      refine ⟨Or.inl rfl, ?_, ?_⟩
      · intro y2 hy2
        injection hy2 with hy2
        omega
      · intro b hb
        cases hb
    | some b =>
      simp only [hac] at h
      by_cases hlt : y < b
      · rw [if_pos hlt] at h
        injection h with h
        subst h
        refine ⟨Or.inl rfl, ?_, ?_⟩
        · intro y2 hy2
          injection hy2 with hy2
          omega
        · intro b2 hb2
          injection hb2 with hb2
          omega
      · rw [if_neg hlt] at h
        injection h with h
        subst h
        refine ⟨Or.inr rfl, ?_, ?_⟩
        · intro y2 hy2
          injection hy2 with hy2
          omega
        · intro b2 hb2
          injection hb2 with hb2
          omega

lemma earliestFold_none : ∀ (ws : List WorkDoc) (acc : Option Int),
    ws.foldl earliestStep acc = none ↔
      (acc = none ∧ ∀ w ∈ ws, w.first_publish_year = none) := by
  intro ws
  induction ws with
  | nil => intro acc; simp
  | cons w ws ih =>
    intro acc
    show ws.foldl earliestStep (earliestStep acc w) = none ↔ _
    rw [ih (earliestStep acc w)]
    constructor
    · rintro ⟨h1, h2⟩
      obtain ⟨ha, hw⟩ := earliestStep_none.mp h1
      refine ⟨ha, ?_⟩
      intro x hx
      rcases List.mem_cons.mp hx with rfl | hx
      · exact hw
      · exact h2 x hx
    · rintro ⟨ha, hall⟩
      refine ⟨earliestStep_none.mpr ⟨ha, hall w (List.mem_cons_self w ws)⟩, ?_⟩
      intro x hx
      exact hall x (List.mem_cons_of_mem w hx)

lemma earliestFold_min : ∀ (ws : List WorkDoc) (acc : Option Int) (m : Int),
    ws.foldl earliestStep acc = some m →
      ((∃ w ∈ ws, w.first_publish_year = some m) ∨ acc = some m)
      ∧ (∀ w ∈ ws, ∀ y, w.first_publish_year = some y → m ≤ y)
      ∧ (∀ a, acc = some a → m ≤ a) := by
  intro ws
  induction ws with
  | nil =>
    intro acc m h
    simp only [List.foldl] at h
    subst h
    exact ⟨Or.inr rfl, by simp, fun a ha => by injection ha with ha; omega⟩
  | cons w ws ih =>
    intro acc m h
    have H := ih (earliestStep acc w) m h
    refine ⟨?_, ?_, ?_⟩
    · rcases H.1 with hex | hacc
      · obtain ⟨x, hx, hxy⟩ := hex
        exact Or.inl ⟨x, List.mem_cons_of_mem w hx, hxy⟩
      · rcases (earliestStep_eq_some hacc).1 with hws | hac
        · exact Or.inl ⟨w, List.mem_cons_self w ws, hws⟩
        · exact Or.inr hac
    · intro x hx y hy
      rcases List.mem_cons.mp hx with rfl | hx
      · cases hs : earliestStep acc x with
        | none =>
          have hn := earliestStep_none.mp hs
          rw [hn.2] at hy
          cases hy
        | some s =>
          have h1 := H.2.2 s hs
          have h2 := (earliestStep_eq_some hs).2.1 y hy
          omega
      · exact H.2.1 x hx y hy
    · intro a ha
      cases hs : earliestStep acc w with
      | none =>
        have hn := earliestStep_none.mp hs
        rw [hn.1] at ha
        cases ha
      | some s =>
        have h1 := H.2.2 s hs
        have h2 := (earliestStep_eq_some hs).2.2 a ha
        omega

lemma mapM_keys_ok : ∀ (l : List WorkDoc), (∀ w ∈ l, w.key.isSome) →
    (l.mapM
      (fun w =>
        match w.key with
        | none => Except.error ()
        | some k => Except.ok (pyReplace k "/works/" "")))
      = Except.ok (l.map (fun w => pyReplace (w.key.getD "") "/works/" "")) := by
  intro l
  induction l with
  | nil => intro _; rfl
  | cons w l ih =>
    intro hall
    have hw := hall w (List.mem_cons_self w l)
    cases hk : w.key with
    | none => rw [hk] at hw; simp at hw
    | some k =>
      rw [List.mapM_cons, ih (fun x hx => hall x (List.mem_cons_of_mem w hx))]
      simp only [List.map_cons, hk, Option.getD_some]
      rfl

/-- C4: `selectEarliest` computes the minimum `first_publish_year` over
exactly the works that have one, and returns the keys of ALL works whose
`first_publish_year` equals that minimum (ties preserved, in input order);
it returns the empty list when no work in the list has a known
`first_publish_year`. -/
theorem c4_earliest_work_selection (works : List WorkDoc) :
    (earliestYearOf works = none ↔ ∀ w ∈ works, w.first_publish_year = none)
    ∧ (earliestYearOf works = none →
        find_work_keys_with_earliest_publication_year works = Except.ok [])
    ∧ ∀ m, earliestYearOf works = some m →
        (∃ w ∈ works, w.first_publish_year = some m)
        ∧ (∀ w ∈ works, ∀ y, w.first_publish_year = some y → m ≤ y)
        ∧ ((∀ w ∈ works.filter (fun w => w.first_publish_year == some m),
              w.key.isSome) →
            find_work_keys_with_earliest_publication_year works
              = Except.ok
                  ((works.filter (fun w => w.first_publish_year == some m)).map
                    (fun w => pyReplace (w.key.getD "") "/works/" ""))) := by
  refine ⟨?_, ?_, ?_⟩
  · rw [show earliestYearOf works = works.foldl earliestStep none from rfl,
      earliestFold_none]
    simp
  · intro h
    unfold find_work_keys_with_earliest_publication_year
    rw [show earliestYearOf works = works.foldl earliestStep none from rfl] at h
    unfold earliestYearOf
    rw [h]
    simp
  · intro m hm
    have H := earliestFold_min works none m hm
    refine ⟨?_, H.2.1, ?_⟩
    · rcases H.1 with hex | habs
      · exact hex
      · exact absurd habs (by simp)
    · intro hkeys
      unfold find_work_keys_with_earliest_publication_year
      rw [show (earliestYearOf works = some m) from hm]
      cases hw : works with
      | nil =>
        subst hw
        simp [earliestYearOf] at hm
      | cons w ws =>
        rw [← hw]
        have hne : works.isEmpty = false := by rw [hw]; rfl
        rw [hne]
        dsimp only [Bool.false_eq_true, if_false]
        exact mapM_keys_ok _ hkeys

/-- Two works tied at the earliest year 1997. -/
def c4Work1 : WorkDoc :=
  { key := some "/works/OL1W", title := some "T", author_key := some ["OLA1"],
    first_publish_year := some 1997 }

/-- Second work tied at 1997. -/
def c4Work2 : WorkDoc :=
  { key := some "/works/OL2W", title := some "T", author_key := some ["OLA2"],
    first_publish_year := some 1997 }

/-- A later work at 2001. -/
def c4Work3 : WorkDoc :=
  { key := some "/works/OL3W", title := some "T", author_key := some ["OLA3"],
    first_publish_year := some 2001 }

/-- C4 witness: works at years 1997, 1997 and 2001 yield both 1997 keys. -/
theorem c4_earliest_work_selection_witness :
    find_work_keys_with_earliest_publication_year [c4Work1, c4Work2, c4Work3]
      = Except.ok ["OL1W", "OL2W"] := by
  have h :=
    ((c4_earliest_work_selection [c4Work1, c4Work2, c4Work3]).2.2 1997
      (by decide)).2.2 (by decide)
  rw [h]
  rfl

lemma filterWorksLoop_eq (env : Env) (title author : String) :
    ∀ (docs : List WorkDoc),
    (∀ w ∈ docs, w.author_key.isSome = true → w.title.isSome = true) →
    filterWorksLoop env title author docs
      = Except.ok (docs.filter (keepWork env title author)) := by
  intro docs
  induction docs with
  | nil => intro _; rfl
  | cons w rest ih =>
    intro ht
    have hrest := ih (fun x hx => ht x (List.mem_cons_of_mem w hx))
    show (if w.author_key.isSome then _ else _) = _
    by_cases hak : w.author_key.isSome = true
    · rw [if_pos hak]
      have hts := ht w (List.mem_cons_self w rest) hak
      cases hwt : w.title with
      | none => rw [hwt] at hts; simp at hts
      | some wt =>
        by_cases hkeep : keepWork env title author w = true
        · rw [if_pos hkeep, hrest, List.filter_cons, if_pos hkeep]
          rfl
        · rw [if_neg hkeep, hrest, List.filter_cons,
            if_neg (by simpa using hkeep)]
    · rw [if_neg hak]
      have hkeep : keepWork env title author w = false := by
        unfold keepWork
        simp only [Bool.and_eq_true, Bool.and_eq_false_iff]
        left; left
        cases h : w.author_key.isSome
        · rfl
        · exact absurd h hak
      rw [hrest, List.filter_cons, if_neg (by simp [hkeep])]

/-- C1: for every catalog work returned by the work search (a successful
search with a non-zero `numFound`, its docs carrying a title whenever they
carry author references, as the loop otherwise raises `KeyError`), the
Work Matcher keeps the work iff it has an `author_key` field, its title
equals the query title case-insensitively, and some resolved author name
(primary or alternate, across all its author references) equals the query
author case-insensitively; works lacking author references are discarded
unconditionally, and an empty filtered list is reported as `None`. -/
theorem c1_work_matcher_filter (env : Env) (title author : String)
    (resp : SearchResult)
    (hs : env.search (buildWorksRequest title author) = some resp)
    (hnf : resp.numFound.getD 0 ≠ 0)
    (ht : ∀ w ∈ resp.docs, w.author_key.isSome = true → w.title.isSome = true) :
    (fetch_and_filter_works env title author
      = Except.ok
          (if (resp.docs.filter (keepWork env title author)).isEmpty then none
           else some (resp.docs.filter (keepWork env title author))))
    ∧ (∀ w ∈ resp.docs,
        (keepWork env title author w = true ↔
          ∃ refs, w.author_key = some refs
            ∧ (∃ wt, w.title = some wt ∧ lowerStr wt = lowerStr title)
            ∧ ∃ n ∈ fetchAllAuthorNames env refs, lowerStr n = lowerStr author))
    ∧ (∀ w ∈ resp.docs, w.author_key = none →
        keepWork env title author w = false) := by
  refine ⟨?_, ?_, ?_⟩
  · unfold fetch_and_filter_works
    rw [hs]
    dsimp only
    rw [if_neg hnf, filterWorksLoop_eq env title author resp.docs ht]
    rfl
  · intro w hw
    constructor
    · intro hk
      unfold keepWork at hk
      simp only [Bool.and_eq_true, decide_eq_true_eq, List.any_eq_true] at hk
      obtain ⟨⟨hak, htl⟩, n, hn, hln⟩ := hk
      obtain ⟨refs, hrefs⟩ := Option.isSome_iff_exists.mp hak
      have hts := ht w hw hak
      obtain ⟨wt, hwt⟩ := Option.isSome_iff_exists.mp hts
      refine ⟨refs, hrefs, ⟨wt, hwt, ?_⟩, ?_⟩
      · rw [hwt] at htl
        simpa using htl
      · rw [hrefs] at hn
        simp only [Option.getD_some] at hn
        exact ⟨n, hn, hln⟩
    · rintro ⟨refs, hrefs, ⟨wt, hwt, hlt⟩, n, hn, hln⟩
      unfold keepWork
      simp only [hrefs, hwt, Option.isSome_some, Option.getD_some,
        Bool.true_and, Bool.and_eq_true, decide_eq_true_eq, List.any_eq_true]
      exact ⟨hlt, n, hn, hln⟩
  · intro w _ hwn
    unfold keepWork
    simp [hwn]

/-- The single matching work of the C1 witness catalog. -/
def c1Doc : WorkDoc :=
  { key := some "/works/OLW", title := some "The Hobbit",
    author_key := some ["OLA"], first_publish_year := some 1937 }

/-- A one-work catalog whose author entity has a matching alternate
name. -/
def c1Env : Env :=
  { search := fun r =>
      if r.title = "the hobbit" ∧ r.author = "tolkien" then
        some { numFound := some 1, docs := [c1Doc] }
      else none
    authorByKey := fun k =>
      if k = "OLA" then
        some { name := some "J.R.R. Tolkien", alternate_names := some ["Tolkien"] }
      else none
    isbnJson := fun _ => Except.error ()
    authorNameByKey := fun _ => Except.error ()
    editionsProbe := fun _ => Except.error ()
    editionsFetch := fun _ _ => Except.error ()
    fuzzy := fun _ => none }

/-- C1 witness: the case-insensitive query ("the hobbit", "tolkien")
matches the catalog work titled "The Hobbit" through the author's
alternate name "Tolkien". -/
theorem c1_work_matcher_filter_witness :
    fetch_and_filter_works c1Env "the hobbit" "tolkien"
      = Except.ok (some [c1Doc]) := by
  have h := (c1_work_matcher_filter c1Env "the hobbit" "tolkien"
    { numFound := some 1, docs := [c1Doc] } (by decide) (by decide)
    (by decide)).1
  rw [h]
  rfl

/-- C5: the date normalizer evaluated around the claim's examples.  The
bare-year and full-date clauses hold, but a year-month input takes the
dateutil fuzzy path, whose missing-day default comes from the current
date: run on 2025-10-15, "2019-07" normalizes to 2019-07-15, not to the
first of the month as the claim states. -/
theorem c5_month_precision_divergence :
    parseEdtfDate (dateutilParse ⟨2025, 10, 15⟩) "2019" = some ⟨2019, 1, 1⟩
    ∧ parseEdtfDate (dateutilParse ⟨2025, 10, 15⟩) "2019-07-04" = some ⟨2019, 7, 4⟩
    ∧ parseEdtfDate (dateutilParse ⟨2025, 10, 15⟩) "2019-07" = some ⟨2019, 7, 15⟩
    ∧ (some (⟨2019, 7, 15⟩ : PyDate) ≠ some (⟨2019, 7, 1⟩ : PyDate)) := by
  decide

/-- C6: the normalizer is a total function returning `Option` — when the
bare-year branch and the fuzzy parse both fail it falls back to salvaging
the first boundary-delimited 4-digit year substring, which the regex
bounds to 1000..2099, returned as January 1 of that year; with no such
substring (e.g. "not a date") the result is `None`. -/
theorem c6_normalize_salvage_or_none :
    (∀ (fuzzy : String → Option PyDate) (s : String),
        yearOnlyNum s = none → fuzzy s = none →
        parseEdtfDate fuzzy s
          = match searchYear s with
            | some y => some ⟨y, 1, 1⟩
            | none => none)
    ∧ (∀ s y, searchYear s = some y → 1000 ≤ y ∧ y ≤ 2099)
    ∧ parseEdtfDate (dateutilParse ⟨2025, 10, 15⟩) "not a date" = none := by
  refine ⟨?_, ?_, by decide⟩
  · intro fuzzy s hyo hfz
    unfold parseEdtfDate
    rw [hyo]
    dsimp only
    rw [hfz]
    cases hsy : searchYear s with
    | none => rfl
    | some y =>
      have hr := searchYear_range hsy
      have hmk : mkDate y 1 1 = some ⟨y, 1, 1⟩ := by
        unfold mkDate
        rw [if_pos]
        refine ⟨by omega, by omega, by omega, by omega, by omega, ?_⟩
        have hd : daysInMonth y 1 = 31 := by simp [daysInMonth]
        omega
      dsimp only
      rw [hmk]
  · intro s y h
    exact searchYear_range h

/-- C6 witness: a fuzzy-unparseable string with an embedded year salvages
January 1 of that year, and the salvaged year is in range. -/
theorem c6_normalize_salvage_or_none_witness :
    parseEdtfDate (fun _ => none) "circa 1987" = some ⟨1987, 1, 1⟩
    ∧ (1000 ≤ 1987 ∧ 1987 ≤ 2099) := by
  constructor
  · have h := c6_normalize_salvage_or_none.1 (fun _ => none) "circa 1987"
      (by decide) rfl
    rw [h]
    decide
  · exact c6_normalize_salvage_or_none.2.1 "circa 1987" 1987 (by decide)

/-- All record fields other than `original_version_metadata` survive
`enrich_with_openlibrary` unchanged, on every path. -/
lemma enrich_fields (env : Env) (m : OverallBookMetadata) :
    (enrich_with_openlibrary env m).filename = m.filename
    ∧ (enrich_with_openlibrary env m).title = m.title
    ∧ (enrich_with_openlibrary env m).subtitle = m.subtitle
    ∧ (enrich_with_openlibrary env m).series = m.series
    ∧ (enrich_with_openlibrary env m).author = m.author
    ∧ (enrich_with_openlibrary env m).books3_version_metadata
        = m.books3_version_metadata := by
  unfold enrich_with_openlibrary
  split
  · exact ⟨rfl, rfl, rfl, rfl, rfl, rfl⟩
  · cases hp : enrichPipeline env m with
    | error e => exact ⟨rfl, rfl, rfl, rfl, rfl, rfl⟩
    | ok ob =>
      cases ob with
      | none => exact ⟨rfl, rfl, rfl, rfl, rfl, rfl⟩
      | some bm => exact ⟨rfl, rfl, rfl, rfl, rfl, rfl⟩

/-- C9: the resolution entry point returns the record with every field
other than `original_version_metadata` unchanged, and it never propagates
an exception: a raised pipeline (modelled by `Except.error`), like every
no-result path, leaves the whole record — `original_version_metadata`
included — exactly as it was. -/
theorem c9_enrich_frame (env : Env) (m : OverallBookMetadata) :
    ((enrich_with_openlibrary env m).filename = m.filename
      ∧ (enrich_with_openlibrary env m).title = m.title
      ∧ (enrich_with_openlibrary env m).subtitle = m.subtitle
      ∧ (enrich_with_openlibrary env m).series = m.series
      ∧ (enrich_with_openlibrary env m).author = m.author
      ∧ (enrich_with_openlibrary env m).books3_version_metadata
          = m.books3_version_metadata)
    ∧ (enrichPipeline env m = Except.error () →
        enrich_with_openlibrary env m = m)
    ∧ (enrichPipeline env m = Except.ok none →
        enrich_with_openlibrary env m = m) := by
  refine ⟨enrich_fields env m, ?_, ?_⟩
  · intro hp
    unfold enrich_with_openlibrary
    split
    · rfl
    · rw [hp]
  · intro hp
    unfold enrich_with_openlibrary
    split
    · rfl
    · rw [hp]

/-- An environment in which every catalog call fails or comes back
empty. -/
def c9Env : Env :=
  { search := fun _ => none
    authorByKey := fun _ => none
    isbnJson := fun _ => Except.error ()
    authorNameByKey := fun _ => Except.error ()
    editionsProbe := fun _ => Except.error ()
    editionsFetch := fun _ _ => Except.error ()
    fuzzy := fun _ => none }

/-- A record whose `books3_version_metadata` is `None`, so that the ISBN
fallback raises `AttributeError` inside the guarded block. -/
def c9Meta : OverallBookMetadata :=
  { filename := some "book.txt", title := some "A Title",
    subtitle := none, series := none, author := some ["An Author"],
    books3_version_metadata := none, original_version_metadata := none }

/-- C9 witness: with every catalog call failing and a `None`
`books3_version_metadata`, the pipeline raises and the record comes back
exactly as it went in. -/
theorem c9_enrich_frame_witness :
    enrich_with_openlibrary c9Env c9Meta = c9Meta :=
  (c9_enrich_frame c9Env c9Meta).2.1 rfl

lemma filterWorksLoop_subset (env : Env) (title author : String) :
    ∀ (docs : List WorkDoc) (l : List WorkDoc),
    filterWorksLoop env title author docs = Except.ok l →
    (∀ x ∈ l, x ∈ docs) ∧ l.length ≤ docs.length := by
  intro docs
  induction docs with
  | nil =>
    intro l h
    injection h with h
    subst h
    exact ⟨by simp, by simp⟩
  | cons w rest ih =>
    intro l h
    show _ ∧ l.length ≤ rest.length + 1
    rw [show filterWorksLoop env title author (w :: rest)
        = (if w.author_key.isSome then
            match w.title with
            | none => Except.error ()
            | some _ =>
              if keepWork env title author w then
                (filterWorksLoop env title author rest).map (fun l => w :: l)
              else filterWorksLoop env title author rest
          else filterWorksLoop env title author rest) from rfl] at h
    by_cases hak : w.author_key.isSome = true
    · rw [if_pos hak] at h
      cases hwt : w.title with
      | none => rw [hwt] at h; cases h
      | some wt =>
        rw [hwt] at h
        dsimp only at h
        by_cases hkeep : keepWork env title author w = true
        · rw [if_pos hkeep] at h
          cases hr : filterWorksLoop env title author rest with
          | error e => rw [hr] at h; cases h
          | ok l1 =>
            rw [hr] at h
            injection h with h
            subst h
            have H := ih l1 hr
            constructor
            · intro x hx
              rcases List.mem_cons.mp hx with rfl | hx
              · exact List.mem_cons_self x rest
              · exact List.mem_cons_of_mem w (H.1 x hx)
            · have := H.2
              simp only [List.length_cons]
              omega
        · rw [if_neg hkeep] at h
          have H := ih l h
          exact ⟨fun x hx => List.mem_cons_of_mem w (H.1 x hx),
            by have := H.2; omega⟩
    · rw [if_neg hak] at h
      have H := ih l h
      exact ⟨fun x hx => List.mem_cons_of_mem w (H.1 x hx),
        by have := H.2; omega⟩

/-- C10: the work-search request is hard-capped at `limit=100`, and the
matcher only ever keeps works drawn from the returned docs — so whenever
the catalog honors the limit (at most 100 docs), at most 100 candidates
are considered, and a matching work outside the returned docs is never
kept. -/
theorem c10_search_limit (env : Env) :
    (∀ title author, (buildWorksRequest title author).limit = 100)
    ∧ (∀ title author resp l,
        env.search (buildWorksRequest title author) = some resp →
        fetch_and_filter_works env title author = Except.ok (some l) →
        (∀ w ∈ l, w ∈ resp.docs) ∧ (resp.docs.length ≤ 100 → l.length ≤ 100)) := by
  constructor
  · intro _ _
    rfl
  · intro title author resp l hs hf
    unfold fetch_and_filter_works at hf
    rw [hs] at hf
    dsimp only at hf
    by_cases hnf : resp.numFound.getD 0 = 0
    · rw [if_pos hnf] at hf
      cases hf
    · rw [if_neg hnf] at hf
      cases hr : filterWorksLoop env title author resp.docs with
      | error e => rw [hr] at hf; cases hf
      | ok l0 =>
        rw [hr] at hf
        have hl : l = l0 := by
          by_cases he : l0.isEmpty = true
          · rw [show Except.map (fun l => if l.isEmpty = true then none else some l)
                (Except.ok l0) = Except.ok (if l0.isEmpty = true then none
                  else some l0) from rfl, if_pos he] at hf
            cases hf
          · rw [show Except.map (fun l => if l.isEmpty = true then none else some l)
                (Except.ok l0) = Except.ok (if l0.isEmpty = true then none
                  else some l0) from rfl, if_neg he] at hf
            injection hf with hf
            injection hf with hf
            exact hf.symm
        subst hl
        have H := filterWorksLoop_subset env title author resp.docs l hr
        exact ⟨H.1, fun hle => by have := H.2; omega⟩

/-- C10 witness: the limit field of a concrete request, and the kept works
of the witness catalog drawn from its single returned doc. -/
theorem c10_search_limit_witness :
    (buildWorksRequest "the hobbit" "tolkien").limit = 100
    ∧ ∀ w ∈ [c1Doc],
        w ∈ ({ numFound := some 1, docs := [c1Doc] } : SearchResult).docs :=
  ⟨(c10_search_limit c1Env).1 "the hobbit" "tolkien",
    ((c10_search_limit c1Env).2 "the hobbit" "tolkien"
      { numFound := some 1, docs := [c1Doc] } [c1Doc] (by decide) (by rfl)).1⟩

/-- C7: the ISBN fallback runs only when the primary (title, author)
search found nothing: a successful primary search short-circuits with an
empty ISBN trace; on primary failure the ISBNs are tried in input order —
the `isbn_13` list first, then the `isbn_10` list — and the trace stops
exactly at the first ISBN whose attempt yields a non-empty match set,
with every earlier ISBN having failed; when no ISBN succeeds, all of them
were tried. -/
theorem c7_isbn_fallback (env : Env) (title : String) (authors : List String)
    (bm : BookMetadata) :
    (∀ ws, tryAuthors env title authors = Except.ok (some ws) →
        worksPhaseTrace env title authors (some bm) = (Except.ok (some ws), []))
    ∧ (tryAuthors env title authors = Except.ok none →
        worksPhaseTrace env title authors (some bm)
          = (Except.ok
              (tryIsbnsTrace env (bm.isbn_13.getD [] ++ bm.isbn_10.getD [])).1,
             (tryIsbnsTrace env (bm.isbn_13.getD [] ++ bm.isbn_10.getD [])).2))
    ∧ (∀ isbns ws, (tryIsbnsTrace env isbns).1 = some ws →
        ∃ pre isbn post, isbns = pre ++ isbn :: post
          ∧ (tryIsbnsTrace env isbns).2 = pre ++ [isbn]
          ∧ attemptIsbn env isbn = some ws
          ∧ ∀ i ∈ pre, attemptIsbn env i = none)
    ∧ (∀ isbns : List String, (tryIsbnsTrace env isbns).1 = none →
        (tryIsbnsTrace env isbns).2 = isbns) := by
  refine ⟨?_, ?_, ?_, ?_⟩
  · intro ws h
    unfold worksPhaseTrace
    rw [h]
  · intro h
    unfold worksPhaseTrace
    rw [h]
  · intro isbns
    induction isbns with
    | nil => intro ws h; cases h
    | cons i rest ih =>
      intro ws h
      rw [show tryIsbnsTrace env (i :: rest)
          = (match attemptIsbn env i with
             | some ws => (some ws, [i])
             | none =>
               ((tryIsbnsTrace env rest).1,
                 i :: (tryIsbnsTrace env rest).2)) from rfl] at h ⊢
      cases ha : attemptIsbn env i with
      | some ws0 =>
        rw [ha] at h
        dsimp only at h
        injection h with h
        subst h
        exact ⟨[], i, rest, rfl, rfl, ha, by simp⟩
      | none =>
        rw [ha] at h
        dsimp only at h
        obtain ⟨pre, isbn, post, h1, h2, h3, h4⟩ := ih ws h
        refine ⟨i :: pre, isbn, post, by rw [h1]; rfl, by rw [h2]; rfl, h3, ?_⟩
        intro x hx
        rcases List.mem_cons.mp hx with rfl | hx
        · exact ha
        · exact h4 x hx
  · intro isbns
    induction isbns with
    | nil => intro _; rfl
    | cons i rest ih =>
      intro h
      rw [show tryIsbnsTrace env (i :: rest)
          = (match attemptIsbn env i with
             | some ws => (some ws, [i])
             | none =>
               ((tryIsbnsTrace env rest).1,
                 i :: (tryIsbnsTrace env rest).2)) from rfl] at h ⊢
      cases ha : attemptIsbn env i with
      | some ws0 =>
        rw [ha] at h
        dsimp only at h
        cases h
      | none =>
        rw [ha] at h
        dsimp only at h
        rw [ih h]

/-- The work matched by the C7 witness catalog through the second ISBN. -/
def c7Doc : WorkDoc :=
  { key := some "/works/OL7W", title := some "t2",
    author_key := some ["K"], first_publish_year := some 1980 }

/-- A catalog in which the primary query finds nothing, the first ISBN
lookup raises, and the second ISBN resolves to a matching
(title, author) pair. -/
def c7Env : Env :=
  { search := fun r =>
      if r.title = "t2" ∧ r.author = "a2" then
        some { numFound := some 1, docs := [c7Doc] }
      else none
    authorByKey := fun k =>
      if k = "K" then some { name := some "a2", alternate_names := none }
      else none
    isbnJson := fun isbn =>
      if isbn = "222" then
        Except.ok { title := some "t2", authors := some [{ key := some "/authors/KA" }] }
      else Except.error ()
    authorNameByKey := fun k =>
      if k = "KA" then Except.ok (some "a2") else Except.error ()
    editionsProbe := fun _ => Except.error ()
    editionsFetch := fun _ _ => Except.error ()
    fuzzy := fun _ => none }

/-- The books3 metadata of the C7 witness record, carrying a failing
ISBN-13 and a succeeding ISBN-10. -/
def c7Bm : BookMetadata :=
  { translator := none, isbn_13 := some ["111"], isbn_10 := some ["222"],
    publication_date := none, status := none, publisher := none }

/-- C7 witness: with the primary search failing, the phase falls through
to the ISBN trace over the concatenated ISBN lists. -/
theorem c7_isbn_fallback_witness :
    worksPhaseTrace c7Env "t1" ["a1"] (some c7Bm)
      = (Except.ok (tryIsbnsTrace c7Env ["111", "222"]).1,
         (tryIsbnsTrace c7Env ["111", "222"]).2) :=
  (c7_isbn_fallback c7Env "t1" ["a1"] c7Bm).2.1 rfl

lemma processed_mem : ∀ (existing : List (Option OverallBookMetadata)) (f : String),
    f ∈ get_processed_filenames existing ↔
      ∃ r, some r ∈ existing ∧ r.filename = some f ∧ f ≠ "" := by
  intro existing f
  induction existing with
  | nil => simp [get_processed_filenames]
  | cons l rest ih =>
    rw [show get_processed_filenames (l :: rest)
        = (match l with
           | none => get_processed_filenames rest
           | some data =>
             match data.filename with
             | none => get_processed_filenames rest
             | some f0 =>
               if f0.isEmpty then get_processed_filenames rest
               else f0 :: get_processed_filenames rest) from rfl]
    cases l with
    | none =>
      rw [ih]
      constructor
      · rintro ⟨r, hr, hf, hne⟩
        exact ⟨r, List.mem_cons_of_mem _ hr, hf, hne⟩
      · rintro ⟨r, hr, hf, hne⟩
        rcases List.mem_cons.mp hr with heq | hr
        · cases heq
        · exact ⟨r, hr, hf, hne⟩
    | some data =>
      dsimp only
      cases hdf : data.filename with
      | none =>
        rw [ih]
        constructor
        · rintro ⟨r, hr, hf, hne⟩
          exact ⟨r, List.mem_cons_of_mem _ hr, hf, hne⟩
        · rintro ⟨r, hr, hf, hne⟩
          rcases List.mem_cons.mp hr with heq | hr
          · injection heq with heq
            subst heq
            rw [hdf] at hf
            cases hf
          · exact ⟨r, hr, hf, hne⟩
      | some f0 =>
        dsimp only
        by_cases hemp : f0.isEmpty = true
        · rw [if_pos hemp, ih]
          have hf0 : f0 = "" := (String.isEmpty_iff f0).mp hemp
          constructor
          · rintro ⟨r, hr, hf, hne⟩
            exact ⟨r, List.mem_cons_of_mem _ hr, hf, hne⟩
          · rintro ⟨r, hr, hf, hne⟩
            rcases List.mem_cons.mp hr with heq | hr
            · injection heq with heq
              subst heq
              rw [hdf] at hf
              injection hf with hf
              exact absurd (by rw [← hf, hf0]) hne
            · exact ⟨r, hr, hf, hne⟩
        · rw [if_neg hemp]
          have hf0 : f0 ≠ "" := fun h =>
            hemp ((String.isEmpty_iff f0).mpr h)
          constructor
          · intro hmem
            rcases List.mem_cons.mp hmem with rfl | hmem
            · exact ⟨data, List.mem_cons_self _ _, hdf, hf0⟩
            · obtain ⟨r, hr, hf, hne⟩ := ih.mp hmem
              exact ⟨r, List.mem_cons_of_mem _ hr, hf, hne⟩
          · rintro ⟨r, hr, hf, hne⟩
            rcases List.mem_cons.mp hr with heq | hr
            · injection heq with heq
              subst heq
              rw [hdf] at hf
              injection hf with hf
              rw [hf]
              exact List.mem_cons_self _ _
            · exact List.mem_cons_of_mem _ (ih.mpr ⟨r, hr, hf, hne⟩)

/-- C8: the set of completed keys is exactly the truthy filenames of the
parseable lines of the existing output stream; every parsed input entry
whose filename is in that set is excluded from processing; and every
record the run appends has a filename outside that set, so resuming never
produces a duplicate output line for an already-completed key. -/
theorem c8_resume_skip (env : Env)
    (input_lines existing : List (Option OverallBookMetadata))
    (limit : Option Nat) :
    (∀ f, f ∈ get_processed_filenames existing ↔
        ∃ r, some r ∈ existing ∧ r.filename = some f ∧ f ≠ "")
    ∧ (∀ e ∈ allEntriesOf input_lines,
        (∃ f, e.filename = some f ∧ f ∈ get_processed_filenames existing) →
        e ∉ entriesToProcess input_lines existing)
    ∧ (∀ r ∈ runBatch env input_lines existing limit,
        ∀ f, r.filename = some f → f ∉ get_processed_filenames existing) := by
  refine ⟨processed_mem existing, ?_, ?_⟩
  · rintro e _ ⟨f, hef, hfp⟩ hmem
    have h2 := (List.mem_filter.mp hmem).2
    rw [hef] at h2
    dsimp only at h2
    have h4 : (get_processed_filenames existing).contains f = true := by
      simpa [List.elem_iff] using hfp
    rw [h4] at h2
    cases h2
  · intro r hr f hrf hfp
    obtain ⟨e, he, hre⟩ := List.mem_map.mp hr
    have hef : e.filename = some f := by
      have := (enrich_fields env e).1
      rw [← hre, this] at hrf
      exact hrf
    have hetp : e ∈ entriesToProcess input_lines existing := by
      cases hlim : limit with
      | none =>
        rw [hlim] at he
        exact he
      | some n =>
        rw [hlim] at he
        exact List.mem_of_mem_take he
    have h2 := (List.mem_filter.mp hetp).2
    rw [hef] at h2
    dsimp only at h2
    have h4 : (get_processed_filenames existing).contains f = true := by
      simpa [List.elem_iff] using hfp
    rw [h4] at h2
    cases h2

/-- An already-completed input record. -/
def c8EntryA : OverallBookMetadata :=
  { filename := some "a.txt", title := some "A", subtitle := none,
    series := none, author := some ["X"], books3_version_metadata := none,
    original_version_metadata := none }

/-- A not-yet-processed input record. -/
def c8EntryB : OverallBookMetadata :=
  { filename := some "b.txt", title := some "B", subtitle := none,
    series := none, author := some ["Y"], books3_version_metadata := none,
    original_version_metadata := none }

/-- C8 witness: with "a.txt" already in the output stream, the entry named
"a.txt" is skipped, and no appended record carries the completed key. -/
theorem c8_resume_skip_witness :
    c8EntryA ∉ entriesToProcess [some c8EntryA, some c8EntryB] [some c8EntryA]
    ∧ ∀ r ∈ runBatch c9Env [some c8EntryA, some c8EntryB] [some c8EntryA] none,
        ∀ f, r.filename = some f →
          f ∉ get_processed_filenames [some c8EntryA] :=
  ⟨(c8_resume_skip c9Env [some c8EntryA, some c8EntryB] [some c8EntryA]
      none).2.1 c8EntryA (by decide) ⟨"a.txt", rfl, by decide⟩,
    (c8_resume_skip c9Env [some c8EntryA, some c8EntryB] [some c8EntryA]
      none).2.2⟩
